import Mathlib

/-!
Shallow embedding of `src/cuckoofilter.h` (a cuckoo filter paired with an
exact key/value store).  The hash family (`hashutil.h`), the bucket table
(`singletable.h`) and the associative store (`libcuckoo`) are external to
the repository; their contracts are modelled from the spec where noted.
Keys and values are opaque fixed-width data used only through hashing and
equality, so both are modelled as `Nat`.
-/

namespace CF

/-- maximum number of cuckoo kicks before claiming failure
(`kMaxCuckooCount`, cuckoofilter.h line 24). -/
def kMaxCuckooCount : Nat := 500

/-- Hash model: the parameters the template and the supplied hash family fix
for the lifetime of a filter.  `bob1`/`bob2` are the two 32-bit outputs of
`HashUtil::BobHash`, `hasher` is `hasher_(key)` (64-bit), `bits` is
`bits_per_item`, `numBuckets` is `table_->NumBuckets()`. -/
structure HashModel where
  numBuckets : Nat
  bits : Nat
  bob1 : Nat → Nat
  bob2 : Nat → Nat
  hasher : Nat → Nat

/-- The victim cache struct (cuckoofilter.h lines 44-50). -/
structure VictimCache where
  index : Nat
  tag_hash : Nat
  used : Bool
  key : Nat
  val : Nat

/-- The mutable state of a filter: the bucket table (4 tag slots per
bucket, 0 = empty), the associative value store addressed by
(bucket, slot), the stored-item counter and the victim cache. -/
structure FilterState where
  table : Nat → Fin 4 → Nat
  hashmap : Nat → Fin 4 → Option (Nat × Nat)
  num_items : Nat
  victim : VictimCache

/-- `TagHash` (lines 63-70): the i-th tag is `bits` bits wide, cut from the
64-bit tag hash after i shifts by `bits`, and forced non-zero by adding
`(tag == 0)`. -/
def tagHashAt (bits hv : Nat) (s : Fin 4) : Nat :=
  let t := (hv >>> (bits * s.val)) &&& (2 ^ bits - 1)
  t + (if t = 0 then 1 else 0)

/-- The four candidate tags of a key, derived from `hasher_(key)`
(`GenerateIndexTagHash`, lines 72-89). -/
def tags (M : HashModel) (key : Nat) : Fin 4 → Nat :=
  fun s => tagHashAt M.bits (M.hasher key) s

/-- First candidate bucket index: `BobHash` output masked by
`NumBuckets() - 1` (lines 76-77). -/
def i1 (M : HashModel) (key : Nat) : Nat :=
  M.bob1 key &&& (M.numBuckets - 1)

/-- Second candidate bucket index (lines 76-78). -/
def i2 (M : HashModel) (key : Nat) : Nat :=
  M.bob2 key &&& (M.numBuckets - 1)

/-- `table_->ReadTag(b, s)`. -/
def readTag (tbl : Nat → Fin 4 → Nat) (b : Nat) (s : Fin 4) : Nat := tbl b s

/-- `table_->WriteTag(b, s, t)`. -/
def writeTag (tbl : Nat → Fin 4 → Nat) (b : Nat) (s : Fin 4) (t : Nat) :
    Nat → Fin 4 → Nat :=
  fun b' s' => if b' = b ∧ s' = s then t else tbl b' s'

/-- `hashmap.read_from_bucket_at_slot`: Modelled from the spec: the
associative value store maps a (bucket, slot) address to the (key, value)
pair stored there, `none` when the address holds no entry. -/
def hmRead (hm : Nat → Fin 4 → Option (Nat × Nat)) (b : Nat) (s : Fin 4) :
    Option (Nat × Nat) := hm b s

/-- `hashmap.add_to_bucket_at_slot`. -/
def hmAdd (hm : Nat → Fin 4 → Option (Nat × Nat)) (b : Nat) (s : Fin 4)
    (k v : Nat) : Nat → Fin 4 → Option (Nat × Nat) :=
  fun b' s' => if b' = b ∧ s' = s then some (k, v) else hm b' s'

/-- `hashmap.del_from_bucket_at_slot`. -/
def hmDel (hm : Nat → Fin 4 → Option (Nat × Nat)) (b : Nat) (s : Fin 4) :
    Nat → Fin 4 → Option (Nat × Nat) :=
  fun b' s' => if b' = b ∧ s' = s then none else hm b' s'

/-- First empty slot of a bucket (tag 0), scanning slots 0..3 in order. -/
def findEmptySlot (tbl : Nat → Fin 4 → Nat) (b : Nat) : Option (Fin 4) :=
  (List.finRange 4).find? (fun s => tbl b s == 0)

/-- Modelled from the spec: `singletable.h`'s
`InsertTagToBucket(bucket, tags, kickout, slot)` scans the bucket's 4 slots
for an empty one and places the candidate tag for that slot position there;
if none is empty and `kickout` holds it picks a slot (a random one, here the
supplied `r` reduced mod 4), overwrites it with the candidate tag for that
position and reports the evicted slot.  The returned Bool is true exactly
when the tag went into an empty slot — the caller (insert_impl, lines
382-405) reads the evicted entry and swaps it only on the `false`+kickout
path, so an eviction must report `false`. -/
def insertTagToBucket (tbl : Nat → Fin 4 → Nat) (b : Nat)
    (ct : Fin 4 → Nat) (kickout : Bool) (r : Nat) :
    Bool × Fin 4 × (Nat → Fin 4 → Nat) :=
  match findEmptySlot tbl b with
  | some s => (true, s, writeTag tbl b s (ct s))
  | none =>
    if kickout then
      let s : Fin 4 := ⟨r % 4, by omega⟩
      (false, s, writeTag tbl b s (ct s))
    else (false, ⟨0, by omega⟩, tbl)

/-- The victim check shared by find/findinfilter/contains/erase
(e.g. lines 168-169): the key equals the victim's key and either candidate
index equals the victim's bucket index. -/
def victimMatch (M : HashModel) (st : FilterState) (key : Nat) : Bool :=
  st.victim.used && (key == st.victim.key) &&
    (i1 M key == st.victim.index || i2 M key == st.victim.index)

/-- The alternate-slot choice of `remove_false_positives` (lines 510-512):
`new_slot = rand() % 3`, bumped to 3 when it equals `slot`. -/
def newSlotOf (slot : Fin 4) (r : Nat) : Fin 4 :=
  if r % 3 = slot.val then ⟨3, by omega⟩ else ⟨r % 3, by omega⟩

/-- The relocation performed by `remove_false_positives` once `new_slot`
is chosen (lines 515-545): move the entry at `slot` to `new_slot`
(re-deriving its tag for the new slot position), and move `new_slot`'s
former occupant (if any) into `slot`, else clear `slot`.  Reads of
addresses holding no entry (impossible while the store invariant holds)
leave the state unchanged. -/
def rfpCore (M : HashModel) (st : FilterState) (index : Nat)
    (slot new_slot : Fin 4) : FilterState :=
  let empty_new_slot := readTag st.table index new_slot == 0
  match hmRead st.hashmap index slot with
  | none => st
  | some kv_slot =>
    if empty_new_slot then
      { st with
        table := writeTag (writeTag st.table index slot 0) index new_slot
          (tags M kv_slot.1 new_slot)
        hashmap := hmAdd (hmDel st.hashmap index slot) index new_slot
          kv_slot.1 kv_slot.2 }
    else
      match hmRead st.hashmap index new_slot with
      | none => st
      | some kv_new =>
        { st with
          table := writeTag (writeTag st.table index slot
            (tags M kv_new.1 slot)) index new_slot (tags M kv_slot.1 new_slot)
          hashmap := hmAdd (hmAdd st.hashmap index slot kv_new.1 kv_new.2)
            index new_slot kv_slot.1 kv_slot.2 }

/-- `remove_false_positives(index, slot)` (lines 504-546) with the
`rand()` value passed in as `r`. -/
def removeFalsePositives (M : HashModel) (st : FilterState) (index : Nat)
    (slot : Fin 4) (r : Nat) : FilterState :=
  rfpCore M st index slot (newSlotOf slot r)

/-- Apply `remove_false_positives` to each recorded address in order
(the loops at lines 220-223 / 338-341 / 483-485); `rr i` is the `rand()`
value consumed by the i-th repair call. -/
def applyRepairs (M : HashModel) (rr : Nat → Nat) (st : FilterState)
    (fps : List (Nat × Fin 4)) : FilterState :=
  (fps.enum).foldl (fun st2 p => removeFalsePositives M st2 p.2.1 p.2.2 (rr p.1)) st

/-- One slot of the scan shared by `find` and `contains` (lines 181-218 /
299-333): on a tag match read the store; a matching key is a confirmed hit,
a mismatching key records the address as a false positive. -/
def containsScanStep (M : HashModel) (st : FilterState) (k i : Nat)
    (acc : Bool × List (Nat × Fin 4)) (s : Fin 4) : Bool × List (Nat × Fin 4) :=
  if tags M k s = readTag st.table i s then
    match hmRead st.hashmap i s with
    | some kv => if kv.1 = k then (true, acc.2) else (acc.1, acc.2 ++ [(i, s)])
    | none => acc
  else acc

/-- `contains(key)` (lines 277-344): victim check first, then scan both
candidate buckets with exact-key disambiguation, repair every recorded
false positive, and return whether a confirmed hit occurred. -/
def contains (M : HashModel) (rr : Nat → Nat) (st : FilterState) (k : Nat) :
    Bool × FilterState :=
  if victimMatch M st k then (true, st)
  else
    let a1 := (List.finRange 4).foldl (containsScanStep M st k (i1 M k)) (false, [])
    let a2 := (List.finRange 4).foldl (containsScanStep M st k (i2 M k)) a1
    (a2.1, applyRepairs M rr st a2.2)

/-- One slot of `find`'s scan: as `containsScanStep` but a confirmed hit
also captures the stored value (lines 183-196). -/
def findScanStep (M : HashModel) (st : FilterState) (k i : Nat)
    (acc : Option Nat × List (Nat × Fin 4)) (s : Fin 4) :
    Option Nat × List (Nat × Fin 4) :=
  if tags M k s = readTag st.table i s then
    match hmRead st.hashmap i s with
    | some kv => if kv.1 = k then (some kv.2, acc.2) else (acc.1, acc.2 ++ [(i, s)])
    | none => acc
  else acc

/-- `find(key, val)` (lines 157-235), with the out-parameter rendered as
`Option`: `some v` exactly when the scan (or the victim check) confirmed
the key, `none` otherwise. -/
def find (M : HashModel) (rr : Nat → Nat) (st : FilterState) (k : Nat) :
    Option Nat × FilterState :=
  if victimMatch M st k then (some st.victim.val, st)
  else
    let a1 := (List.finRange 4).foldl (findScanStep M st k (i1 M k)) (none, [])
    let a2 := (List.finRange 4).foldl (findScanStep M st k (i2 M k)) a1
    (a2.1, applyRepairs M rr st a2.2)

/-- `findinfilter(key)` (lines 239-272): victim check, then a purely
positional tag comparison over each candidate bucket; no store reads,
no repair, no mutation. -/
def findinfilter (M : HashModel) (st : FilterState) (k : Nat) :
    Bool × FilterState :=
  if victimMatch M st k then (true, st)
  else if (List.finRange 4).any (fun s => tags M k s == readTag st.table (i1 M k) s) then
    (true, st)
  else if (List.finRange 4).any (fun s => tags M k s == readTag st.table (i2 M k) s) then
    (true, st)
  else (false, st)

/-- The eviction loop of `insert_impl` (lines 377-416).  `fuel` counts the
remaining iterations (kMaxCuckooCount at the top call), `count` the
iterations already executed, so `kickout = count > 0`; `rk count` is the
random slot the table picks when evicting on attempt `count`.  Returns the
source's Bool, the new state, and the number of placement attempts made.
On fuel exhaustion the still-displaced tuple moves into the victim
(lines 411-416). -/
def insertLoop (M : HashModel) (rk : Nat → Nat) :
    Nat → Nat → Nat → Nat → Nat → (Fin 4 → Nat) → Nat → FilterState →
    Bool × FilterState × Nat
  | 0, count, ck, cv, ci, _ct, cth, st =>
    (true, { st with victim := ⟨ci, cth, true, ck, cv⟩ }, count)
  | fuel+1, count, ck, cv, ci, ct, cth, st =>
    let kickout := decide (0 < count)
    let r := insertTagToBucket st.table ci ct kickout (rk count)
    if r.1 then
      (true,
       { st with
         table := r.2.2
         hashmap := hmAdd st.hashmap ci r.2.1 ck cv
         num_items := st.num_items + 1 },
       count + 1)
    else
      let old := (hmRead st.hashmap ci r.2.1).getD (0, 0)
      let ck' := if kickout then old.1 else ck
      let cv' := if kickout then old.2 else cv
      let hm' := if kickout then hmAdd st.hashmap ci r.2.1 ck cv else st.hashmap
      let st' := { st with table := r.2.2, hashmap := hm' }
      let ci' := if ci = i1 M ck' then i2 M ck' else i1 M ck'
      insertLoop M rk fuel (count + 1) ck' cv' ci' (tags M ck') (M.hasher ck') st'

/-- `insert_impl(key, val, i, tag, taghash)` (lines 367-417). -/
def insert_impl (M : HashModel) (rk : Nat → Nat) (key val idx : Nat)
    (ct : Fin 4 → Nat) (th : Nat) (st : FilterState) :
    Bool × FilterState × Nat :=
  insertLoop M rk kMaxCuckooCount 0 key val idx ct th st

/-- `insert(key, val)` (lines 348-363): reject if the victim is in use,
else run the eviction chain starting at `i1`. -/
def insert (M : HashModel) (rk : Nat → Nat) (st : FilterState)
    (key val : Nat) : Bool × FilterState :=
  if st.victim.used then (false, st)
  else
    let r := insert_impl M rk key val (i1 M key) (tags M key) (M.hasher key) st
    (r.1, r.2.1)

/-- One slot of `erase`'s scan (lines 445-477): threads the state because a
confirmed hit zeroes the table slot and deletes the store entry in place. -/
def eraseScanStep (M : HashModel) (k i : Nat)
    (acc : FilterState × Bool × List (Nat × Fin 4)) (s : Fin 4) :
    FilterState × Bool × List (Nat × Fin 4) :=
  if tags M k s = readTag acc.1.table i s then
    match hmRead acc.1.hashmap i s with
    | some kv =>
      if kv.1 = k then
        ({ acc.1 with
           table := writeTag acc.1.table i s 0
           hashmap := hmDel acc.1.hashmap i s }, true, acc.2.2)
      else (acc.1, acc.2.1, acc.2.2 ++ [(i, s)])
    | none => acc
  else acc

/-- `erase(key)` (lines 421-500): victim match clears the victim and
returns; otherwise scan both candidate buckets removing every confirmed
occupant, repair recorded false positives, and if something was removed
while the victim is in use, clear the victim and re-insert its tuple
starting at its recorded bucket index.  The item counter is never
decremented (faithful to the source). -/
def erase (M : HashModel) (rr rk : Nat → Nat) (st : FilterState) (k : Nat) :
    Bool × FilterState :=
  if victimMatch M st k then
    (true, { st with victim := { st.victim with used := false } })
  else
    let a1 := (List.finRange 4).foldl (eraseScanStep M k (i1 M k)) (st, false, [])
    let a2 := (List.finRange 4).foldl (eraseScanStep M k (i2 M k)) a1
    let st2 := applyRepairs M rr a2.1 a2.2.2
    if a2.2.1 = false then (false, st2)
    else if st2.victim.used then
      (true,
       (insertLoop M rk kMaxCuckooCount 0 st2.victim.key st2.victim.val
         st2.victim.index (fun j => tagHashAt M.bits st2.victim.tag_hash j)
         st2.victim.tag_hash
         { st2 with victim := { st2.victim with used := false } }).2.1)
    else (true, st2)

/-- Modelled from the spec: `hashutil.h`'s `upperpower2(x)`, the least
power of two that is at least `x` (64-bit). -/
def upperpower2 (x : Nat) : Nat :=
  2 ^ (((List.range 64).find? (fun k => x ≤ 2 ^ k)).getD 64)

/-- The bucket count chosen by the constructor (lines 97-110): sized from
the fixed internal working size `(1 << 16) * 2`, not from `max_num_keys`;
doubled when the load fraction would exceed 0.96. -/
def constructorNumBuckets (max_num_keys : Nat) : Nat :=
  let assoc : Nat := 4
  let max_num_keys_1 : Nat := (2 ^ 16) * 2
  let num_buckets := upperpower2 (max 1 (max_num_keys_1 / assoc))
  -- frac = max_num_keys_1 / num_buckets / assoc; `frac > 0.96` rendered as
  -- the exact cross-multiplied comparison (every quantity involved is a
  -- power of two, so the double arithmetic of the source is exact here)
  if 96 * (num_buckets * assoc) < 100 * max_num_keys_1 then num_buckets * 2
  else num_buckets

/-- A confirmed hit for key `k` at slot `s` of bucket `i`: the stored tag
equals `k`'s candidate tag for that slot position and the value-store entry
there holds exactly `k`. -/
def confirmedHitB (M : HashModel) (st : FilterState) (k i : Nat) (s : Fin 4) : Bool :=
  (tags M k s == readTag st.table i s) &&
    ((hmRead st.hashmap i s).any (fun kv => kv.1 == k))

/-- The data-model invariant: the value store has an entry at (b, s) iff
the table slot (b, s) holds a non-zero tag, and the entry's key's derived
candidate tag for slot position s equals the stored tag. -/
def Inv (M : HashModel) (st : FilterState) : Prop :=
  ∀ (b : Nat) (s : Fin 4),
    ((readTag st.table b s ≠ 0) ↔ (hmRead st.hashmap b s).isSome = true) ∧
    (∀ kv, hmRead st.hashmap b s = some kv → tags M kv.1 s = readTag st.table b s)

/-- Auxiliary strengthening: a used victim stores the tag hash of its own
key (true of every victim the code creates, lines 411-415). -/
def VicWF (M : HashModel) (st : FilterState) : Prop :=
  st.victim.used = true → st.victim.tag_hash = M.hasher st.victim.key

/-- The inductive invariant: the store/table pairing plus victim
consistency. -/
def WF (M : HashModel) (st : FilterState) : Prop :=
  Inv M st ∧ VicWF M st

/-- A freshly constructed filter: empty table, empty store, zero items,
unused victim (lines 97-110). -/
def emptyState : FilterState :=
  { table := fun _ _ => 0, hashmap := fun _ _ => none, num_items := 0
    victim := { index := 0, tag_hash := 0, used := false, key := 0, val := 0 } }

/-- Concrete one-bucket hash model used for witnesses (numBuckets = 1 is a
power of two, so both candidate indices are 0 for every key). -/
def M1 : HashModel :=
  { numBuckets := 1, bits := 4, bob1 := fun n => n, bob2 := fun n => n
    hasher := fun n => n }

/-- Concrete two-bucket hash model: a key's candidate buckets are both
`key % 2`. -/
def M2 : HashModel :=
  { numBuckets := 2, bits := 4, bob1 := fun n => n, bob2 := fun n => n
    hasher := fun n => n }

/-- A constant random stream. -/
def rr0 : Nat → Nat := fun _ => 0

/-- A cycling random stream (attempt `c` kicks slot `c % 4`). -/
def rkCycle : Nat → Nat := fun c => c

/-- A one-bucket state whose only stored tag (4, at slot 0) equals key
9029's candidate tag for slot 1 but not the one for slot 0: a
slot-misaligned tag coincidence. -/
def stC8 : FilterState :=
  { emptyState with table := fun b s => if b = 0 ∧ s.val = 0 then 4 else 0 }

/-- A one-bucket state holding a tag-colliding entry for a foreign key:
slot 0 stores tag 5 (= key 9029's candidate tag for slot 0) but the value
store entry there belongs to key 7. -/
def stC1w : FilterState :=
  { emptyState with
    table := fun b s => if b = 0 ∧ s.val = 0 then 5 else 0
    hashmap := fun b s => if b = 0 ∧ s.val = 0 then some (7, 70) else none
    num_items := 1 }

/-- Two-bucket state: key 0 confirmed at (0,0); bucket 1 full of entries
for odd keys 1,3,5,7 (each with both candidate indices 1); the victim is in
use with the odd key 101.  Erasing key 0 frees a slot in bucket 0 only, so
the victim re-insertion chain circles inside the full bucket 1 until its
bound is exhausted and re-occupies the victim. -/
def stC6 : FilterState :=
  { table := fun b s => if b = 0 then (if s.val = 0 then 1 else 0)
      else if b = 1 then 1 else 0
    hashmap := fun b s =>
      if b = 0 then (if s.val = 0 then some (0, 42) else none)
      else if b = 1 then some (2 * s.val + 1, 10 * (2 * s.val + 1)) else none
    num_items := 5
    victim := { index := 1, tag_hash := 101, used := true, key := 101, val := 77 } }

/-- One-bucket state with key 5 confirmed at (0,0), three free slots, and a
used victim holding key 3: erasing key 5 triggers a victim re-insert that
succeeds immediately. -/
def stW6 : FilterState :=
  { table := fun b s => if b = 0 ∧ s.val = 0 then 5 else 0
    hashmap := fun b s => if b = 0 ∧ s.val = 0 then some (5, 50) else none
    num_items := 1
    victim := { index := 0, tag_hash := 3, used := true, key := 3, val := 30 } }

/-! ## Basic lemmas -/

lemma tagHashAt_ne_zero (bits hv : Nat) (s : Fin 4) : tagHashAt bits hv s ≠ 0 := by
  simp only [tagHashAt]
  split <;> simp_all

lemma tags_ne_zero (M : HashModel) (k : Nat) (s : Fin 4) : tags M k s ≠ 0 :=
  tagHashAt_ne_zero M.bits (M.hasher k) s

lemma insertLoop_fst (M : HashModel) (rk : Nat → Nat) :
    ∀ (fuel count ck cv ci : Nat) (ct : Fin 4 → Nat) (cth : Nat) (st : FilterState),
      (insertLoop M rk fuel count ck cv ci ct cth st).1 = true := by
  intro fuel
  induction fuel with
  | zero => intro count ck cv ci ct cth st; rfl
  | succ fuel ih =>
    intro count ck cv ci ct cth st
    simp only [insertLoop]
    split
    · rfl
    · exact ih ..

lemma containsScanStep_fst (M : HashModel) (st : FilterState) (k i : Nat)
    (acc : Bool × List (Nat × Fin 4)) (s : Fin 4) :
    (containsScanStep M st k i acc s).1 = (acc.1 || confirmedHitB M st k i s) := by
  unfold containsScanStep confirmedHitB
  split
  · next h =>
    cases hm : hmRead st.hashmap i s with
    | none => simp [h, hm, Option.any]
    | some kv =>
      by_cases hk : kv.1 = k
      · simp [h, hm, hk, Option.any]
      · simp [h, hm, hk, Option.any]
  · next h =>
    have : (tags M k s == readTag st.table i s) = false := by
      simp [beq_iff_eq]
      exact h
    simp [this]

lemma containsScan_fold_fst (M : HashModel) (st : FilterState) (k i : Nat) :
    ∀ (l : List (Fin 4)) (acc : Bool × List (Nat × Fin 4)),
      (l.foldl (containsScanStep M st k i) acc).1 =
        (acc.1 || l.any (fun s => confirmedHitB M st k i s)) := by
  intro l
  induction l with
  | nil => intro acc; simp
  | cons s l ih =>
    intro acc
    simp only [List.foldl_cons, List.any_cons, ih, containsScanStep_fst,
      Bool.or_assoc]

lemma findScanStep_fst_none (M : HashModel) (st : FilterState) (k i : Nat)
    (acc : Option Nat × List (Nat × Fin 4)) (s : Fin 4) :
    ((findScanStep M st k i acc s).1 = none) ↔
      (acc.1 = none ∧ confirmedHitB M st k i s = false) := by
  unfold findScanStep confirmedHitB
  split
  · next h =>
    cases hm : hmRead st.hashmap i s with
    | none => simp [h, hm, Option.any]
    | some kv =>
      by_cases hk : kv.1 = k
      · simp [h, hm, hk, Option.any]
      · simp [h, hm, hk, Option.any]
  · next h =>
    have : (tags M k s == readTag st.table i s) = false := by
      simp [beq_iff_eq]
      exact h
    simp [this]

lemma findScan_fold_none (M : HashModel) (st : FilterState) (k i : Nat) :
    ∀ (l : List (Fin 4)) (acc : Option Nat × List (Nat × Fin 4)),
      ((l.foldl (findScanStep M st k i) acc).1 = none) ↔
        (acc.1 = none ∧ ∀ s ∈ l, confirmedHitB M st k i s = false) := by
  intro l
  induction l with
  | nil => intro acc; simp
  | cons s l ih =>
    intro acc
    rw [List.foldl_cons, ih, findScanStep_fst_none]
    simp only [List.forall_mem_cons]
    tauto

lemma insertLoop_spec_th (M : HashModel) (rk : Nat → Nat) :
    ∀ (fuel count ck cv ci : Nat) (ct : Fin 4 → Nat) (cth : Nat) (st : FilterState),
      cth = M.hasher ck →
      (insertLoop M rk fuel count ck cv ci ct cth st).2.2 ≤ count + fuel ∧
      (((insertLoop M rk fuel count ck cv ci ct cth st).2.1.victim = st.victim ∧
        (insertLoop M rk fuel count ck cv ci ct cth st).2.1.num_items = st.num_items + 1) ∨
       ((insertLoop M rk fuel count ck cv ci ct cth st).2.2 = count + fuel ∧
        (insertLoop M rk fuel count ck cv ci ct cth st).2.1.victim.used = true ∧
        (insertLoop M rk fuel count ck cv ci ct cth st).2.1.num_items = st.num_items ∧
        (insertLoop M rk fuel count ck cv ci ct cth st).2.1.victim.tag_hash =
          M.hasher (insertLoop M rk fuel count ck cv ci ct cth st).2.1.victim.key)) := by
  intro fuel
  induction fuel with
  | zero =>
    intro count ck cv ci ct cth st hth
    exact ⟨Nat.le_refl _, Or.inr ⟨rfl, rfl, rfl, hth⟩⟩
  | succ fuel ih =>
    intro count ck cv ci ct cth st hth
    simp only [insertLoop]
    split
    · refine ⟨?_, Or.inl ⟨rfl, rfl⟩⟩
      show count + 1 ≤ count + (fuel + 1)
      omega
    · rw [show count + (fuel + 1) = (count + 1) + fuel from by omega]
      exact ih (count + 1) _ _ _ _ _ _ rfl

lemma insertLoop_spec_any (M : HashModel) (rk : Nat → Nat)
    (fuel count ck cv ci : Nat) (ct : Fin 4 → Nat) (cth : Nat) (st : FilterState)
    (hfuel : fuel ≠ 0) :
    (insertLoop M rk fuel count ck cv ci ct cth st).2.2 ≤ count + fuel ∧
    (((insertLoop M rk fuel count ck cv ci ct cth st).2.1.victim = st.victim ∧
      (insertLoop M rk fuel count ck cv ci ct cth st).2.1.num_items = st.num_items + 1) ∨
     ((insertLoop M rk fuel count ck cv ci ct cth st).2.2 = count + fuel ∧
      (insertLoop M rk fuel count ck cv ci ct cth st).2.1.victim.used = true ∧
      (insertLoop M rk fuel count ck cv ci ct cth st).2.1.num_items = st.num_items ∧
      (insertLoop M rk fuel count ck cv ci ct cth st).2.1.victim.tag_hash =
        M.hasher (insertLoop M rk fuel count ck cv ci ct cth st).2.1.victim.key)) := by
  cases fuel with
  | zero => exact absurd rfl hfuel
  | succ fuel =>
    simp only [insertLoop]
    split
    · refine ⟨?_, Or.inl ⟨rfl, rfl⟩⟩
      show count + 1 ≤ count + (fuel + 1)
      omega
    · rw [show count + (fuel + 1) = (count + 1) + fuel from by omega]
      exact insertLoop_spec_th M rk fuel (count + 1) _ _ _ _ _ _ rfl

lemma eraseScanStep_no_hit (M : HashModel) (k i : Nat) (st : FilterState)
    (f0 : Bool) (fps : List (Nat × Fin 4)) (s : Fin 4)
    (h : confirmedHitB M st k i s = false) :
    eraseScanStep M k i (st, f0, fps) s = (st, f0, fps) ∨
    eraseScanStep M k i (st, f0, fps) s = (st, f0, fps ++ [(i, s)]) := by
  unfold eraseScanStep
  by_cases ht : tags M k s = readTag st.table i s
  · cases hm : hmRead st.hashmap i s with
    | none => left; simp [ht, hm]
    | some kv =>
      by_cases hk : kv.1 = k
      · exfalso
        simp [confirmedHitB, ht, hm, hk, Option.any] at h
      · right; simp [ht, hm, hk]
  · left; simp [ht]

lemma eraseScan_fold_no_hit (M : HashModel) (k i : Nat) (st : FilterState)
    (h : ∀ s : Fin 4, confirmedHitB M st k i s = false) :
    ∀ (l : List (Fin 4)) (f0 : Bool) (fps : List (Nat × Fin 4)),
      ∃ σ : List (Nat × Fin 4),
        l.foldl (eraseScanStep M k i) (st, f0, fps) = (st, f0, fps ++ σ) ∧
        ∀ p ∈ σ, p.1 = i := by
  intro l
  induction l with
  | nil =>
    intro f0 fps
    exact ⟨[], by simp, by simp⟩
  | cons s l ih =>
    intro f0 fps
    rcases eraseScanStep_no_hit M k i st f0 fps s (h s) with he | he
    · rw [List.foldl_cons, he]
      exact ih f0 fps
    · rw [List.foldl_cons, he]
      obtain ⟨σ, h1, h2⟩ := ih f0 (fps ++ [(i, s)])
      refine ⟨(i, s) :: σ, ?_, ?_⟩
      · rw [h1]
        simp
      · intro p hp
        rw [List.mem_cons] at hp
        rcases hp with hp | hp
        · rw [hp]
        · exact h2 p hp

lemma eraseScanStep_mono (M : HashModel) (k i : Nat)
    (acc : FilterState × Bool × List (Nat × Fin 4)) (s : Fin 4)
    (h : acc.2.1 = true) : (eraseScanStep M k i acc s).2.1 = true := by
  unfold eraseScanStep
  split
  · split
    · split
      · rfl
      · exact h
    · exact h
  · exact h

lemma eraseScan_fold_mono (M : HashModel) (k i : Nat) :
    ∀ (l : List (Fin 4)) (acc : FilterState × Bool × List (Nat × Fin 4)),
      acc.2.1 = true → (l.foldl (eraseScanStep M k i) acc).2.1 = true := by
  intro l
  induction l with
  | nil => intro acc h; exact h
  | cons s l ih =>
    intro acc h
    rw [List.foldl_cons]
    exact ih _ (eraseScanStep_mono M k i acc s h)

lemma eraseScanStep_hit (M : HashModel) (k i : Nat) (st : FilterState)
    (f0 : Bool) (fps : List (Nat × Fin 4)) (s : Fin 4)
    (h : confirmedHitB M st k i s = true) :
    eraseScanStep M k i (st, f0, fps) s =
      ({ st with
         table := writeTag st.table i s 0
         hashmap := hmDel st.hashmap i s }, true, fps) := by
  unfold confirmedHitB at h
  rw [Bool.and_eq_true, beq_iff_eq] at h
  obtain ⟨ht, ha⟩ := h
  unfold eraseScanStep
  cases hm : hmRead st.hashmap i s with
  | none => rw [hm] at ha; simp [Option.any] at ha
  | some kv =>
    rw [hm] at ha
    simp only [Option.any, beq_iff_eq] at ha
    simp [ht, hm, ha]

lemma eraseScan_fold_found (M : HashModel) (k i : Nat) :
    ∀ (l : List (Fin 4)) (st : FilterState) (f0 : Bool) (fps : List (Nat × Fin 4)),
      ((l.foldl (eraseScanStep M k i) (st, f0, fps)).2.1 = true) ↔
        (f0 = true ∨ ∃ s ∈ l, confirmedHitB M st k i s = true) := by
  intro l
  induction l with
  | nil => intro st f0 fps; simp
  | cons s l ih =>
    intro st f0 fps
    by_cases h : confirmedHitB M st k i s = true
    · rw [List.foldl_cons, eraseScanStep_hit M k i st f0 fps s h]
      constructor
      · intro _
        exact Or.inr ⟨s, by simp, h⟩
      · intro _
        exact eraseScan_fold_mono M k i l _ rfl
    · have h' : confirmedHitB M st k i s = false := by
        simpa using h
      rcases eraseScanStep_no_hit M k i st f0 fps s h' with he | he <;>
      · rw [List.foldl_cons, he, ih]
        simp [h]

lemma eraseScanStep_frame (M : HashModel) (k i : Nat)
    (acc : FilterState × Bool × List (Nat × Fin 4)) (s : Fin 4) :
    (eraseScanStep M k i acc s).1.victim = acc.1.victim ∧
    (eraseScanStep M k i acc s).1.num_items = acc.1.num_items := by
  unfold eraseScanStep
  split
  · split
    · split
      · exact ⟨rfl, rfl⟩
      · exact ⟨rfl, rfl⟩
    · exact ⟨rfl, rfl⟩
  · exact ⟨rfl, rfl⟩

lemma eraseScan_fold_frame (M : HashModel) (k i : Nat) :
    ∀ (l : List (Fin 4)) (acc : FilterState × Bool × List (Nat × Fin 4)),
      (l.foldl (eraseScanStep M k i) acc).1.victim = acc.1.victim ∧
      (l.foldl (eraseScanStep M k i) acc).1.num_items = acc.1.num_items := by
  intro l
  induction l with
  | nil => intro acc; exact ⟨rfl, rfl⟩
  | cons s l ih =>
    intro acc
    rw [List.foldl_cons]
    obtain ⟨h1, h2⟩ := ih (eraseScanStep M k i acc s)
    obtain ⟨g1, g2⟩ := eraseScanStep_frame M k i acc s
    exact ⟨h1.trans g1, h2.trans g2⟩

lemma rfpCore_frame (M : HashModel) (st : FilterState)
    (index : Nat) (slot ns : Fin 4) :
    (rfpCore M st index slot ns).victim = st.victim ∧
    (rfpCore M st index slot ns).num_items = st.num_items := by
  simp only [rfpCore]
  repeat' split
  all_goals exact ⟨rfl, rfl⟩

lemma removeFalsePositives_frame (M : HashModel) (st : FilterState)
    (index : Nat) (slot : Fin 4) (r : Nat) :
    (removeFalsePositives M st index slot r).victim = st.victim ∧
    (removeFalsePositives M st index slot r).num_items = st.num_items :=
  rfpCore_frame M st index slot (newSlotOf slot r)

lemma repairsFold_frame (M : HashModel) (rr : Nat → Nat) :
    ∀ (l : List (Nat × (Nat × Fin 4))) (st : FilterState),
      ((l.foldl (fun st2 p => removeFalsePositives M st2 p.2.1 p.2.2 (rr p.1)) st).victim
        = st.victim) ∧
      ((l.foldl (fun st2 p => removeFalsePositives M st2 p.2.1 p.2.2 (rr p.1)) st).num_items
        = st.num_items) := by
  intro l
  induction l with
  | nil => intro st; exact ⟨rfl, rfl⟩
  | cons p l ih =>
    intro st
    rw [List.foldl_cons]
    obtain ⟨h1, h2⟩ := ih (removeFalsePositives M st p.2.1 p.2.2 (rr p.1))
    obtain ⟨g1, g2⟩ := removeFalsePositives_frame M st p.2.1 p.2.2 (rr p.1)
    exact ⟨h1.trans g1, h2.trans g2⟩

lemma applyRepairs_frame (M : HashModel) (rr : Nat → Nat) (st : FilterState)
    (fps : List (Nat × Fin 4)) :
    (applyRepairs M rr st fps).victim = st.victim ∧
    (applyRepairs M rr st fps).num_items = st.num_items :=
  repairsFold_frame M rr fps.enum st

/-! ## Claim theorems (easy group) -/

/-- C5: the eviction chain of `insert_impl` performs at most
`kMaxCuckooCount` = 500 placement attempts and always returns success:
either an attempt placed the entry (item count incremented, victim
untouched), or the bound was reached after exactly 500 attempts and the
still-displaced tuple was stored into the victim, which ends marked used
(its tag hash is the displaced key's own tag hash) with the item count
unchanged. -/
theorem insert_impl_bounded (M : HashModel) (rk : Nat → Nat)
    (key val idx : Nat) (st : FilterState) :
    (insert_impl M rk key val idx (tags M key) (M.hasher key) st).2.2 ≤ kMaxCuckooCount ∧
    (insert_impl M rk key val idx (tags M key) (M.hasher key) st).1 = true ∧
    (((insert_impl M rk key val idx (tags M key) (M.hasher key) st).2.1.victim = st.victim ∧
      (insert_impl M rk key val idx (tags M key) (M.hasher key) st).2.1.num_items = st.num_items + 1) ∨
     ((insert_impl M rk key val idx (tags M key) (M.hasher key) st).2.2 = kMaxCuckooCount ∧
      (insert_impl M rk key val idx (tags M key) (M.hasher key) st).2.1.victim.used = true ∧
      (insert_impl M rk key val idx (tags M key) (M.hasher key) st).2.1.num_items = st.num_items ∧
      (insert_impl M rk key val idx (tags M key) (M.hasher key) st).2.1.victim.tag_hash =
        M.hasher (insert_impl M rk key val idx (tags M key) (M.hasher key) st).2.1.victim.key)) := by
  have h := insertLoop_spec_th M rk kMaxCuckooCount 0 key val idx (tags M key)
    (M.hasher key) st rfl
  rw [Nat.zero_add] at h
  exact ⟨h.1, insertLoop_fst M rk kMaxCuckooCount 0 key val idx (tags M key)
    (M.hasher key) st, h.2⟩

/-- C1: a lookup reports a hit only on an exact match.  `contains` returns
true iff the victim matches or some tag-matching slot of one of the two
candidate buckets has a value-store entry holding exactly the queried key;
`find` returns a value iff the same condition holds.  In particular, for a
key that was never added (no store entry holds it, the victim does not
match it), both report a miss even when a slot holds a colliding tag. -/
theorem contains_find_confirmed_only (M : HashModel) (rr : Nat → Nat)
    (st : FilterState) (k : Nat) :
    ((contains M rr st k).1 = true ↔
      (victimMatch M st k = true ∨
       ∃ s : Fin 4, confirmedHitB M st k (i1 M k) s = true ∨
         confirmedHitB M st k (i2 M k) s = true)) ∧
    ((find M rr st k).1 = none ↔
      ¬(victimMatch M st k = true ∨
        ∃ s : Fin 4, confirmedHitB M st k (i1 M k) s = true ∨
          confirmedHitB M st k (i2 M k) s = true)) := by
  constructor
  · unfold contains
    split
    · next h => simp [h]
    · next h =>
      simp only [Bool.not_eq_true] at h
      simp only [containsScan_fold_fst, Bool.false_or, Bool.or_eq_true,
        List.any_eq_true, List.mem_finRange, true_and, h]
      simp [exists_or]
  · unfold find
    split
    · next h => simp [h]
    · next h =>
      simp only [Bool.not_eq_true] at h
      rw [findScan_fold_none, findScan_fold_none]
      simp only [List.mem_finRange, true_implies, h, Bool.false_eq_true,
        false_or, true_and, not_exists, not_or, Bool.not_eq_true]
      exact ⟨fun hp x => ⟨hp.1 x, hp.2 x⟩,
        fun hh => ⟨fun s => (hh s).1, fun s => (hh s).2⟩⟩

/-- C9: the constructor sizes the table from the fixed internal working
size 2^17, not from `max_num_keys`: the next power of two of
max(1, 2^17 / 4) is 32768, the load fraction 2^17 / (32768 * 4) = 1
exceeds 0.96, so the count doubles to 65536 — for every argument. -/
theorem constructor_buckets_constant (max_num_keys : Nat) :
    constructorNumBuckets max_num_keys = 65536 := by
  unfold constructorNumBuckets upperpower2
  decide

/-- C10: `findinfilter` returns the filter state unchanged — it reads tags
only, performs no disambiguation, and never triggers false-positive
repair. -/
theorem findinfilter_state_unchanged (M : HashModel) (st : FilterState) (k : Nat) :
    (findinfilter M st k).2 = st := by
  unfold findinfilter
  split
  · rfl
  · split
    · rfl
    · split <;> rfl

/-- C8 (amended): `findinfilter` returns true iff the victim is used,
matches the key and one of its candidate indices, or one of the two
candidate buckets has a slot whose stored tag equals the key's candidate
tag FOR THAT SLOT POSITION (the comparison is positional, not against all
four candidate tags). -/
theorem findinfilter_positional_iff (M : HashModel) (st : FilterState) (k : Nat) :
    (findinfilter M st k).1 = true ↔
      (victimMatch M st k = true ∨
       ∃ s : Fin 4, tags M k s = readTag st.table (i1 M k) s ∨
         tags M k s = readTag st.table (i2 M k) s) := by
  have hsplit : (findinfilter M st k).1 = (victimMatch M st k ||
      ((List.finRange 4).any fun s => tags M k s == readTag st.table (i1 M k) s) ||
      ((List.finRange 4).any fun s => tags M k s == readTag st.table (i2 M k) s)) := by
    unfold findinfilter
    split
    · next h => simp [h]
    · next h =>
      simp only [Bool.not_eq_true] at h
      split
      · next h1 => simp [h, h1]
      · next h1 =>
        simp only [Bool.not_eq_true] at h1
        split
        · next h2 => simp [h, h1, h2]
        · next h2 =>
          simp only [Bool.not_eq_true] at h2
          simp [h, h1, h2]
  rw [hsplit]
  simp only [Bool.or_eq_true, List.any_eq_true, List.mem_finRange, true_and,
    beq_iff_eq, exists_or]
  tauto

/-- C8 (counterexample): in the one-bucket model, key 9029 has candidate
tags 5,4,3,2; the table stores tag 4 at slot 0 of its candidate bucket —
equal to one of the key's four candidate tags — yet `findinfilter` returns
false, because slot 0 is only compared against candidate tag 5. -/
theorem findinfilter_any_tag_cex :
    (findinfilter M1 stC8 9029).1 = false ∧
    stC8.victim.used = false ∧
    readTag stC8.table (i1 M1 9029) 0 = tags M1 9029 1 ∧
    readTag stC8.table (i1 M1 9029) 0 ≠ tags M1 9029 0 := by
  decide

/-- C2 (divergence witness): starting from the empty filter (victim
unused), Add(5, 50) then Erase(5) leaves Contains(5) false, but the item
count stays at 1 instead of returning to its pre-Add value 0: `erase`
never decrements `num_items_`. -/
theorem erase_does_not_restore_size :
    emptyState.num_items = 0 ∧ emptyState.victim.used = false ∧
    (insert M1 rr0 emptyState 5 50).1 = true ∧
    (insert M1 rr0 emptyState 5 50).2.num_items = 1 ∧
    (erase M1 rr0 rr0 (insert M1 rr0 emptyState 5 50).2 5).1 = true ∧
    (contains M1 rr0 (erase M1 rr0 rr0 (insert M1 rr0 emptyState 5 50).2 5).2 5).1 = false ∧
    (erase M1 rr0 rr0 (insert M1 rr0 emptyState 5 50).2 5).2.num_items = 1 := by
  decide

/-- C4: `insert` returns false exactly when the victim is in use at the
start of the call; in every other case — eviction-chain exhaustion
included — it returns true, because `insert_impl` returns true on every
path. -/
theorem insert_false_iff_victim_used (M : HashModel) (rk : Nat → Nat)
    (st : FilterState) (key val : Nat) :
    (insert M rk st key val).1 = false ↔ st.victim.used = true := by
  unfold insert
  split
  · next h => simp [h]
  · next h =>
    simp only [Bool.not_eq_true] at h
    simp [h, insert_impl, insertLoop_fst]

/-- C7: erasing an absent key fails and at most repairs.  When the victim
does not match `k` and no slot of either candidate bucket holds a
confirmed occupant for `k` (so `erase` cannot remove one), the call
returns false and the final state is exactly the input state with the
recorded false-positive repairs applied — all at addresses inside the two
candidate buckets — leaving the victim and the item count unchanged. -/
theorem erase_absent_false (M : HashModel) (rr rk : Nat → Nat)
    (st : FilterState) (k : Nat)
    (hvm : victimMatch M st k = false)
    (h1 : ∀ s : Fin 4, confirmedHitB M st k (i1 M k) s = false)
    (h2 : ∀ s : Fin 4, confirmedHitB M st k (i2 M k) s = false) :
    (erase M rr rk st k).1 = false ∧
    ∃ fps : List (Nat × Fin 4),
      (∀ p ∈ fps, p.1 = i1 M k ∨ p.1 = i2 M k) ∧
      (erase M rr rk st k).2 = applyRepairs M rr st fps ∧
      (erase M rr rk st k).2.victim = st.victim ∧
      (erase M rr rk st k).2.num_items = st.num_items := by
  obtain ⟨σ1, e1, m1⟩ := eraseScan_fold_no_hit M k (i1 M k) st h1 (List.finRange 4) false []
  rw [List.nil_append] at e1
  obtain ⟨σ2, e2, m2⟩ := eraseScan_fold_no_hit M k (i2 M k) st h2 (List.finRange 4) false σ1
  have herase : erase M rr rk st k = (false, applyRepairs M rr st (σ1 ++ σ2)) := by
    unfold erase
    rw [hvm]
    simp only [Bool.false_eq_true, if_false, e1, e2]
    rw [if_pos trivial]
  rw [herase]
  refine ⟨rfl, σ1 ++ σ2, ?_, rfl, ?_, ?_⟩
  · intro p hp
    rcases List.mem_append.mp hp with hp | hp
    · exact Or.inl (m1 p hp)
    · exact Or.inr (m2 p hp)
  · exact (applyRepairs_frame M rr st (σ1 ++ σ2)).1
  · exact (applyRepairs_frame M rr st (σ1 ++ σ2)).2

/-- Witness for C7: in the one-bucket model, key 9029 is absent from
`stC1w` — slot 0 holds its candidate tag 5 but the store entry there
belongs to key 7, and the victim is unused — so erase returns false. -/
theorem erase_absent_false_witness :
    victimMatch M1 stC1w 9029 = false ∧
    (∀ s : Fin 4, confirmedHitB M1 stC1w 9029 (i1 M1 9029) s = false) ∧
    (∀ s : Fin 4, confirmedHitB M1 stC1w 9029 (i2 M1 9029) s = false) ∧
    ((erase M1 rr0 rr0 stC1w 9029).1 = false ∧
     ∃ fps : List (Nat × Fin 4),
       (∀ p ∈ fps, p.1 = i1 M1 9029 ∨ p.1 = i2 M1 9029) ∧
       (erase M1 rr0 rr0 stC1w 9029).2 = applyRepairs M1 rr0 stC1w fps ∧
       (erase M1 rr0 rr0 stC1w 9029).2.victim = stC1w.victim ∧
       (erase M1 rr0 rr0 stC1w 9029).2.num_items = stC1w.num_items) :=
  ⟨by decide, by decide, by decide,
   erase_absent_false M1 rr0 rr0 stC1w 9029 (by decide) (by decide) (by decide)⟩

/-- C6 (amended): when `erase` removes a confirmed occupant from the
bucket table while the victim is in use, it clears the victim and then
attempts to re-insert the victim's (key, value) tuple starting at its
recorded bucket index; the victim therefore ends the call cleared UNLESS
the re-insertion's own eviction chain exhausts its `kMaxCuckooCount`
bound, in which case the still-displaced tuple re-occupies the victim. -/
theorem erase_victim_reinsert (M : HashModel) (rr rk : Nat → Nat)
    (st : FilterState) (k : Nat)
    (hused : st.victim.used = true)
    (hvm : victimMatch M st k = false)
    (hhit : ∃ s : Fin 4, confirmedHitB M st k (i1 M k) s = true ∨
      confirmedHitB M st k (i2 M k) s = true) :
    ∃ stMid : FilterState,
      stMid.victim = { st.victim with used := false } ∧
      (erase M rr rk st k).1 = true ∧
      (erase M rr rk st k).2 =
        (insertLoop M rk kMaxCuckooCount 0 st.victim.key st.victim.val
          st.victim.index (fun j => tagHashAt M.bits st.victim.tag_hash j)
          st.victim.tag_hash stMid).2.1 ∧
      ((erase M rr rk st k).2.victim.used = true →
        (insertLoop M rk kMaxCuckooCount 0 st.victim.key st.victim.val
          st.victim.index (fun j => tagHashAt M.bits st.victim.tag_hash j)
          st.victim.tag_hash stMid).2.2 = kMaxCuckooCount) := by
  have hfound : ((List.finRange 4).foldl (eraseScanStep M k (i2 M k))
      ((List.finRange 4).foldl (eraseScanStep M k (i1 M k)) (st, false, []))).2.1 = true := by
    by_cases hx : ∃ s : Fin 4, confirmedHitB M st k (i1 M k) s = true
    · apply eraseScan_fold_mono
      rw [eraseScan_fold_found]
      obtain ⟨s, hs⟩ := hx
      exact Or.inr ⟨s, by simp, hs⟩
    · have h1 : ∀ s : Fin 4, confirmedHitB M st k (i1 M k) s = false := by
        intro s
        by_cases hcc : confirmedHitB M st k (i1 M k) s = true
        · exact absurd ⟨s, hcc⟩ hx
        · simpa using hcc
      obtain ⟨σ1, e1, _⟩ := eraseScan_fold_no_hit M k (i1 M k) st h1 (List.finRange 4) false []
      rw [List.nil_append] at e1
      rw [e1, eraseScan_fold_found]
      obtain ⟨s, hs⟩ := hhit
      rcases hs with hs | hs
      · exact absurd ⟨s, hs⟩ hx
      · exact Or.inr ⟨s, by simp, hs⟩
  have hvic : ((List.finRange 4).foldl (eraseScanStep M k (i2 M k))
      ((List.finRange 4).foldl (eraseScanStep M k (i1 M k)) (st, false, []))).1.victim
      = st.victim :=
    ((eraseScan_fold_frame M k (i2 M k) (List.finRange 4) _).1).trans
      ((eraseScan_fold_frame M k (i1 M k) (List.finRange 4) (st, false, [])).1)
  set A2 := (List.finRange 4).foldl (eraseScanStep M k (i2 M k))
      ((List.finRange 4).foldl (eraseScanStep M k (i1 M k)) (st, false, [])) with hA2
  have hv2 : (applyRepairs M rr A2.1 A2.2.2).victim = st.victim :=
    (applyRepairs_frame M rr A2.1 A2.2.2).1.trans hvic
  have herase : erase M rr rk st k =
      (true, (insertLoop M rk kMaxCuckooCount 0 st.victim.key st.victim.val
        st.victim.index (fun j => tagHashAt M.bits st.victim.tag_hash j)
        st.victim.tag_hash
        { applyRepairs M rr A2.1 A2.2.2 with
          victim := { st.victim with used := false } }).2.1) := by
    unfold erase
    rw [hvm]
    simp only [Bool.false_eq_true, if_false, ← hA2]
    rw [if_neg (by simp [hfound])]
    rw [if_pos (by rw [hv2]; exact hused)]
    rw [hv2]
  refine ⟨{ applyRepairs M rr A2.1 A2.2.2 with
    victim := { st.victim with used := false } }, rfl, ?_, ?_, ?_⟩
  · rw [herase]
  · rw [herase]
  · intro hu
    rw [herase] at hu
    have hspec := insertLoop_spec_any M rk kMaxCuckooCount 0 st.victim.key st.victim.val
      st.victim.index (fun j => tagHashAt M.bits st.victim.tag_hash j) st.victim.tag_hash
      { applyRepairs M rr A2.1 A2.2.2 with
        victim := { st.victim with used := false } }
      (by decide)
    rcases hspec.2 with ⟨hveq, _⟩ | ⟨hcnt, _, _, _⟩
    · rw [hveq] at hu
      simp at hu
    · rw [Nat.zero_add] at hcnt
      exact hcnt

/-- Witness for C6: erasing key 5 from `stW6` removes a confirmed occupant
while the victim (key 3) is in use; the re-insertion succeeds at once
since the bucket has free slots. -/
theorem erase_victim_reinsert_witness :
    stW6.victim.used = true ∧ victimMatch M1 stW6 5 = false ∧
    (∃ s : Fin 4, confirmedHitB M1 stW6 5 (i1 M1 5) s = true ∨
      confirmedHitB M1 stW6 5 (i2 M1 5) s = true) ∧
    (∃ stMid : FilterState,
      stMid.victim = { stW6.victim with used := false } ∧
      (erase M1 rr0 rr0 stW6 5).1 = true ∧
      (erase M1 rr0 rr0 stW6 5).2 =
        (insertLoop M1 rr0 kMaxCuckooCount 0 stW6.victim.key stW6.victim.val
          stW6.victim.index (fun j => tagHashAt M1.bits stW6.victim.tag_hash j)
          stW6.victim.tag_hash stMid).2.1 ∧
      ((erase M1 rr0 rr0 stW6 5).2.victim.used = true →
        (insertLoop M1 rr0 kMaxCuckooCount 0 stW6.victim.key stW6.victim.val
          stW6.victim.index (fun j => tagHashAt M1.bits stW6.victim.tag_hash j)
          stW6.victim.tag_hash stMid).2.2 = kMaxCuckooCount)) :=
  ⟨by decide, by decide, by decide,
   erase_victim_reinsert M1 rr0 rr0 stW6 5 (by decide) (by decide) (by decide)⟩

set_option maxRecDepth 40000 in
/-- C6 (counterexample to the claim as stated): erasing key 0 from `stC6`
removes a confirmed occupant from the bucket table (its slot is zeroed)
while the victim is in use and does not match the key, yet the victim does
NOT end the call cleared: the re-insertion chain for the victim's key
circles inside the full bucket 1 for all 500 attempts and the
still-displaced tuple is stored back into the victim. -/
theorem erase_victim_not_cleared_cex :
    stC6.victim.used = true ∧
    victimMatch M2 stC6 0 = false ∧
    readTag stC6.table 0 0 ≠ 0 ∧
    (erase M2 rr0 rkCycle stC6 0).1 = true ∧
    readTag (erase M2 rr0 rkCycle stC6 0).2.table 0 0 = 0 ∧
    (erase M2 rr0 rkCycle stC6 0).2.victim.used = true := by
  decide

/-! ## Invariant preservation (C3) -/

lemma vicWF_of_victim_eq (M : HashModel) (st st' : FilterState)
    (hv : st'.victim = st.victim) (h : VicWF M st) : VicWF M st' := by
  unfold VicWF at h ⊢
  rw [hv]
  exact h

lemma inv_place (M : HashModel) (st : FilterState) (b : Nat) (s : Fin 4)
    (k0 v0 : Nat) (h : Inv M st) :
    Inv M { st with
            table := writeTag st.table b s (tags M k0 s)
            hashmap := hmAdd st.hashmap b s k0 v0 } := by
  unfold Inv at h ⊢
  intro b' s'
  simp only [readTag, writeTag, hmRead, hmAdd] at h ⊢
  by_cases hb : b' = b ∧ s' = s
  · simp only [if_pos hb, Option.isSome_some]
    obtain ⟨hb1, hb2⟩ := hb
    subst hb1
    subst hb2
    refine ⟨⟨fun _ => trivial, fun _ => tags_ne_zero M k0 s'⟩, ?_⟩
    intro kv hkv
    rw [Option.some.injEq] at hkv
    rw [← hkv]
  · simp only [if_neg hb]
    exact h b' s'

lemma inv_clear (M : HashModel) (st : FilterState) (b : Nat) (s : Fin 4)
    (h : Inv M st) :
    Inv M { st with
            table := writeTag st.table b s 0
            hashmap := hmDel st.hashmap b s } := by
  unfold Inv at h ⊢
  intro b' s'
  simp only [readTag, writeTag, hmRead, hmDel] at h ⊢
  by_cases hb : b' = b ∧ s' = s
  · simp only [if_pos hb, Option.isSome_none]
    refine ⟨⟨fun hne => absurd rfl hne, fun hs => by simp at hs⟩, ?_⟩
    intro kv hkv
    simp at hkv
  · simp only [if_neg hb]
    exact h b' s'

lemma rfpCore_Inv (M : HashModel) (st : FilterState) (index : Nat)
    (slot ns : Fin 4) (hInv : Inv M st) :
    Inv M (rfpCore M st index slot ns) := by
  simp only [rfpCore]
  split
  · exact hInv
  · split
    · exact inv_place M _ index ns _ _ (inv_clear M st index slot hInv)
    · split
      · exact hInv
      · exact inv_place M _ index ns _ _ (inv_place M st index slot _ _ hInv)

lemma removeFalsePositives_WF (M : HashModel) (st : FilterState)
    (index : Nat) (slot : Fin 4) (r : Nat) (h : WF M st) :
    WF M (removeFalsePositives M st index slot r) :=
  ⟨rfpCore_Inv M st index slot (newSlotOf slot r) h.1,
   vicWF_of_victim_eq M st _ (removeFalsePositives_frame M st index slot r).1 h.2⟩

lemma repairsFold_WF (M : HashModel) (rr : Nat → Nat) :
    ∀ (l : List (Nat × (Nat × Fin 4))) (st : FilterState), WF M st →
      WF M (l.foldl (fun st2 p => removeFalsePositives M st2 p.2.1 p.2.2 (rr p.1)) st) := by
  intro l
  induction l with
  | nil => intro st h; exact h
  | cons p l ih =>
    intro st h
    rw [List.foldl_cons]
    exact ih _ (removeFalsePositives_WF M st p.2.1 p.2.2 (rr p.1) h)

lemma applyRepairs_WF (M : HashModel) (rr : Nat → Nat) (st : FilterState)
    (fps : List (Nat × Fin 4)) (h : WF M st) :
    WF M (applyRepairs M rr st fps) :=
  repairsFold_WF M rr fps.enum st h

lemma eraseScanStep_WF (M : HashModel) (k i : Nat)
    (acc : FilterState × Bool × List (Nat × Fin 4)) (s : Fin 4)
    (h : WF M acc.1) : WF M (eraseScanStep M k i acc s).1 := by
  unfold eraseScanStep
  split
  · split
    · split
      · exact ⟨inv_clear M acc.1 i s h.1, vicWF_of_victim_eq M acc.1 _ rfl h.2⟩
      · exact h
    · exact h
  · exact h

lemma eraseScan_fold_WF (M : HashModel) (k i : Nat) :
    ∀ (l : List (Fin 4)) (acc : FilterState × Bool × List (Nat × Fin 4)),
      WF M acc.1 → WF M ((l.foldl (eraseScanStep M k i) acc)).1 := by
  intro l
  induction l with
  | nil => intro acc h; exact h
  | cons s l ih =>
    intro acc h
    rw [List.foldl_cons]
    exact ih _ (eraseScanStep_WF M k i acc s h)

lemma insertLoop_WF (M : HashModel) (rk : Nat → Nat) :
    ∀ (fuel count ck cv ci : Nat) (ct : Fin 4 → Nat) (cth : Nat) (st : FilterState),
      ct = tags M ck → cth = M.hasher ck → WF M st →
      WF M (insertLoop M rk fuel count ck cv ci ct cth st).2.1 := by
  intro fuel
  induction fuel with
  | zero =>
    intro count ck cv ci ct cth st hct hth h
    exact ⟨h.1, fun _ => hth⟩
  | succ fuel ih =>
    intro count ck cv ci ct cth st hct hth h
    subst hct
    subst hth
    simp only [insertLoop]
    cases hfe : findEmptySlot st.table ci with
    | some s =>
      simp only [insertTagToBucket, hfe]
      exact ⟨inv_place M st ci s ck cv h.1, vicWF_of_victim_eq M st _ rfl h.2⟩
    | none =>
      simp only [insertTagToBucket, hfe]
      cases hc : decide (0 < count) with
      | false =>
        simp only [hc, Bool.false_eq_true, if_false]
        exact ih (count + 1) _ _ _ _ _ _ rfl rfl h
      | true =>
        simp only [hc, if_true]
        exact ih (count + 1) _ _ _ _ _ _ rfl rfl
          ⟨inv_place M st ci _ ck cv h.1, vicWF_of_victim_eq M st _ rfl h.2⟩

lemma contains_WF (M : HashModel) (rr : Nat → Nat) (st : FilterState)
    (k : Nat) (h : WF M st) : WF M (contains M rr st k).2 := by
  unfold contains
  split
  · exact h
  · exact applyRepairs_WF M rr st _ h

lemma find_WF (M : HashModel) (rr : Nat → Nat) (st : FilterState)
    (k : Nat) (h : WF M st) : WF M (find M rr st k).2 := by
  unfold find
  split
  · exact h
  · exact applyRepairs_WF M rr st _ h

lemma insert_WF (M : HashModel) (rk : Nat → Nat) (st : FilterState)
    (key val : Nat) (h : WF M st) : WF M (insert M rk st key val).2 := by
  unfold insert
  split
  · exact h
  · exact insertLoop_WF M rk kMaxCuckooCount 0 key val (i1 M key) (tags M key)
      (M.hasher key) st rfl rfl h

lemma erase_WF (M : HashModel) (rr rk : Nat → Nat) (st : FilterState)
    (k : Nat) (h : WF M st) : WF M (erase M rr rk st k).2 := by
  unfold erase
  split
  · exact ⟨h.1, fun hu => by simp at hu⟩
  · have hscan : WF M ((List.finRange 4).foldl (eraseScanStep M k (i2 M k))
        ((List.finRange 4).foldl (eraseScanStep M k (i1 M k)) (st, false, []))).1 :=
      eraseScan_fold_WF M k (i2 M k) (List.finRange 4) _
        (eraseScan_fold_WF M k (i1 M k) (List.finRange 4) (st, false, []) h)
    have hst2 : WF M (applyRepairs M rr
        ((List.finRange 4).foldl (eraseScanStep M k (i2 M k))
          ((List.finRange 4).foldl (eraseScanStep M k (i1 M k)) (st, false, []))).1
        ((List.finRange 4).foldl (eraseScanStep M k (i2 M k))
          ((List.finRange 4).foldl (eraseScanStep M k (i1 M k)) (st, false, []))).2.2) :=
      applyRepairs_WF M rr _ _ hscan
    dsimp only
    split
    · exact hst2
    · split
      · next hu =>
        refine insertLoop_WF M rk kMaxCuckooCount 0 _ _ _ _ _ _ ?_ ?_
          ⟨hst2.1, fun hx => by simp at hx⟩
        · funext j
          rw [hst2.2 hu]
          rfl
        · exact hst2.2 hu
      · exact hst2

/-- The invariant holds in a freshly constructed filter. -/
lemma WF_empty (M : HashModel) : WF M emptyState := by
  constructor
  · intro b s
    refine ⟨⟨fun hne => absurd rfl hne, fun hs => by simp [hmRead, emptyState] at hs⟩, ?_⟩
    intro kv hkv
    simp [hmRead, emptyState] at hkv
  · intro hu
    simp [emptyState] at hu

/-- C3: every operation — Add (insert), Find, Contains, Erase, and the
false-positive repair routine — preserves the invariant that the value
store has an entry at (b, s) iff the table slot (b, s) holds a non-zero
tag whose value is the entry's key's candidate tag for slot position s.
`WF` conjoins this store/table invariant `Inv` with the auxiliary victim
consistency `VicWF` (a used victim stores its own key's tag hash), the
inductive strengthening needed because Erase re-derives the victim's tags
from its stored tag hash. -/
theorem operations_preserve_invariant (M : HashModel) (rr rk : Nat → Nat)
    (st : FilterState) (k v idx r0 : Nat) (sl : Fin 4)
    (h : WF M st) :
    WF M (insert M rk st k v).2 ∧ WF M (find M rr st k).2 ∧
    WF M (contains M rr st k).2 ∧ WF M (erase M rr rk st k).2 ∧
    WF M (removeFalsePositives M st idx sl r0) :=
  ⟨insert_WF M rk st k v h, find_WF M rr st k h, contains_WF M rr st k h,
   erase_WF M rr rk st k h, removeFalsePositives_WF M st idx sl r0 h⟩

/-- Witness for C3: the empty filter satisfies the invariant and every
operation applied to it preserves it. -/
theorem operations_preserve_invariant_witness :
    WF M1 emptyState ∧
    (WF M1 (insert M1 rr0 emptyState 1 2).2 ∧ WF M1 (find M1 rr0 emptyState 1).2 ∧
     WF M1 (contains M1 rr0 emptyState 1).2 ∧ WF M1 (erase M1 rr0 rr0 emptyState 1).2 ∧
     WF M1 (removeFalsePositives M1 emptyState 0 0 0)) :=
  ⟨WF_empty M1,
   operations_preserve_invariant M1 rr0 rr0 emptyState 1 2 0 0 0 (WF_empty M1)⟩

end CF
